import Mathlib

/-!
Verification of the layer primitives and evaluation logic of the
mlp-cnn-trafficSign repository (a from-scratch CNN/VGG16 training stack on
torch tensors, with hand-derived backward passes).

Embedded components, each translated from the named source location:
* `softmaxBackwardCode`   — src/common/layers.py, `SoftmaxWithLoss.backward`
* `vgg16Init`/`loadParams`— src/models/VGG16.py construction and `load_params`
* `cmBuild` … `f1Of`      — src/models/CNN.py, `accuracy_f1score`
  (identical code in src/models/VGG16.py)
* `reluBackwardStep`      — src/common/layers.py, `Relu.backward`
* `bnForwardCore`         — src/common/layers.py, `BatchNormalization.__forward`
* `convForwardShape`      — src/common/layers.py, `Convolution.forward`
* `poolBackward`          — src/common/layers.py, `Pooling.backward`

The helper functions `im2col`/`col2im` live in common/util.py which is not
part of the provided sources; where they are needed they are modelled from
the specification's description and marked `Modelled from the spec`.

Numeric conventions: float tensors are modelled exactly over `ℚ` (or `ℝ`
where a square root occurs); float rounding is not modelled.
-/

/-! ## SoftmaxWithLoss.backward (src/common/layers.py lines 85-94)

The cached tensors `self.y` (the softmax output, a fresh 2-D floating
tensor created in `forward`) and `self.t` (the caller's label tensor) are
torch tensors.  A tensor is modelled as a Python object identity together
with its payload; the payload records dtype and rank, which is what the
indexing semantics depend on. -/

/-- Runtime errors raised by the modelled torch operations. -/
inductive TorchErr where
  /-- `IndexError`: tensors used as indices must be long, byte or bool
  tensors (raised when a floating tensor is used in advanced indexing). -/
  | floatIndexTensor
  /-- Index value or index-tensor extent does not fit the indexed tensor. -/
  | indexOutOfBounds
  /-- Elementwise operation or advanced-indexing broadcast on incompatible
  shapes. -/
  | shapeMismatch
  deriving DecidableEq

/-- Payload of a torch tensor as needed by `SoftmaxWithLoss.backward`:
a 1-D integer (long) tensor, a 1-D floating tensor, or a 2-D floating
tensor.  (2-D integer tensors do not occur in this program: labels are
either integer class-index vectors or floating one-hot matrices.) -/
inductive TTData where
  | ints (v : List Nat)
  | floats1 (v : List ℚ)
  | floats2 (m : List (List ℚ))

/-- A torch tensor: a Python object identity plus its payload. -/
structure PyTen where
  objId : Nat
  data : TTData

/-- `t.shape[0]` (src/common/layers.py line 86). -/
def tLen : TTData → Nat
  | TTData.ints v => v.length
  | TTData.floats1 v => v.length
  | TTData.floats2 m => m.length

/-- `dx[torch.arange(batch_size), self.t] -= 1` on a cloned copy of `y`,
for a 1-D integer index tensor `idxs` (src/common/layers.py line 91):
row `i` gets 1 subtracted at column `idxs[i]`. -/
def subOneAt (ym : List (List ℚ)) (idxs : List Nat) : List (List ℚ) :=
  ym.mapIdx (fun i row =>
    match idxs.get? i with
    | some c => row.mapIdx (fun j v => if j = c then v - 1 else v)
    | none => row)

/-- `SoftmaxWithLoss.backward` (src/common/layers.py lines 85-94).

The guard in the source is `self.t.size == self.y.size`.  On numpy arrays
`.size` is the element count, but on torch tensors `.size` is a *bound
method* (`Tensor.size()`); CPython compares bound methods by comparing the
underlying functions and then the receivers *by identity*, so the guard is
true iff `t` and `y` are the same tensor object.  It is modelled as the
object-identity test `t.objId = y.objId`.

In the `else` branch the source runs
`dx[torch.arange(batch_size), self.t] -= 1`: a floating index tensor
raises `IndexError` (dtype is checked before any shape broadcasting); a
1-D long tensor must fit inside the row/column extents of `dx`. -/
def softmaxBackwardCode (y t : PyTen) : Except TorchErr (List (List ℚ)) :=
  let batch := tLen t.data
  if t.objId = y.objId then
    -- branch commented in the source as the one-hot-label case
    match y.data, t.data with
    | TTData.floats2 ym, TTData.floats2 tm =>
        Except.ok (List.zipWith
          (fun yr tr => List.zipWith (fun a b => (a - b) / (batch : ℚ)) yr tr)
          ym tm)
    | _, _ => Except.error TorchErr.shapeMismatch
  else
    match y.data, t.data with
    | TTData.floats2 ym, TTData.ints idxs =>
        if idxs.length ≤ ym.length
            ∧ (List.range idxs.length).all
                (fun i => idxs.getD i 0 < (ym.getD i []).length) then
          Except.ok ((subOneAt ym idxs).map (fun row =>
            row.map (fun v => v / (batch : ℚ))))
        else Except.error TorchErr.indexOutOfBounds
    | TTData.floats2 _, TTData.floats1 _ => Except.error TorchErr.floatIndexTensor
    | TTData.floats2 _, TTData.floats2 _ => Except.error TorchErr.floatIndexTensor
    | _, _ => Except.error TorchErr.shapeMismatch

/-- The gradient the specification promises for a one-hot target:
`(y − t) / batch_size`, stated in the spec's own words for comparison with
the source translation above. -/
def specOneHotGrad (ym tm : List (List ℚ)) (batch : Nat) : List (List ℚ) :=
  List.zipWith (fun yr tr => List.zipWith (fun a b => (a - b) / (batch : ℚ)) yr tr) ym tm

/-- Failing input for the one-hot branch: cached softmax output
`y = [[1/2, 1/2]]` (object id 0). -/
def yC1 : PyTen := ⟨0, TTData.floats2 [[1/2, 1/2]]⟩

/-- Failing input: cached one-hot floating target `t = [[1, 0]]`, a
distinct object (id 1) with the same total element count as `y`. -/
def tC1 : PyTen := ⟨1, TTData.floats2 [[1, 0]]⟩

/-! ## VGG16 parameter/layer binding and load_params
(src/models/VGG16.py lines 56-97 and 227-235)

Tensor *objects* are modelled by numeric identities; the network state
records which tensor object the flat parameter mapping holds under each
name, and which tensor object each layer's `W`/`b` attribute points at. -/

/-- A key of the flat parameter mapping: `W{i}` or `b{i}`. -/
inductive PKey where
  | W (i : Nat)
  | B (i : Nat)
  deriving DecidableEq

/-- A parameterized layer of VGG16: `Conv{i}` (i = 1..13) or `Affine{i}`
(i = 1..3).  (Relu/Pooling layers hold no parameters.) -/
inductive LKey where
  | Conv (i : Nat)
  | Affine (i : Nat)
  deriving DecidableEq

/-- Object-identity view of a network: the flat parameter mapping and each
layer's `W`/`b` attributes, all as tensor object ids. -/
structure NetState where
  params : PKey → Option Nat
  layerW : LKey → Option Nat
  layerB : LKey → Option Nat

/-- VGG16 construction (src/models/VGG16.py lines 56-97): 16 weight and 16
bias tensors are created (ids: `W i ↦ i`, `b i ↦ 16 + i`); layer `Conv i`
(i = 1..13) is built from `params[W i], params[b i]` and layer `Affine i`
(i = 1..3) from `params[W (13+i)], params[b (13+i)]`. -/
def vgg16Init : NetState where
  params := fun k =>
    match k with
    | PKey.W i => if 1 ≤ i ∧ i ≤ 16 then some i else none
    | PKey.B i => if 1 ≤ i ∧ i ≤ 16 then some (16 + i) else none
  layerW := fun l =>
    match l with
    | LKey.Conv i => if 1 ≤ i ∧ i ≤ 13 then some i else none
    | LKey.Affine i => if 1 ≤ i ∧ i ≤ 3 then some (13 + i) else none
  layerB := fun l =>
    match l with
    | LKey.Conv i => if 1 ≤ i ∧ i ≤ 13 then some (16 + i) else none
    | LKey.Affine i => if 1 ≤ i ∧ i ≤ 3 then some (16 + 13 + i) else none

/-- `VGG16.load_params` (src/models/VGG16.py lines 227-235): every loaded
entry replaces the flat-mapping entry of the same name; then only the three
layers `Conv1`, `Affine1`, `Affine2` are rebound, to `W1/b1`, `W2/b2`,
`W3/b3` respectively (the literal list `["Conv1", "Affine1", "Affine2"]`
with `W/b + str(i+1)` of the source). -/
def loadParams (st : NetState) (loaded : PKey → Option Nat) : NetState where
  params := fun k =>
    match loaded k with
    | some v => some v
    | none => st.params k
  layerW := fun l =>
    let p := fun k =>
      match loaded k with
      | some v => some v
      | none => st.params k
    if l = LKey.Conv 1 then p (PKey.W 1)
    else if l = LKey.Affine 1 then p (PKey.W 2)
    else if l = LKey.Affine 2 then p (PKey.W 3)
    else st.layerW l
  layerB := fun l =>
    let p := fun k =>
      match loaded k with
      | some v => some v
      | none => st.params k
    if l = LKey.Conv 1 then p (PKey.B 1)
    else if l = LKey.Affine 1 then p (PKey.B 2)
    else if l = LKey.Affine 2 then p (PKey.B 3)
    else st.layerB l

/-- A loaded parameter file: fresh tensor objects (ids `200 + i` for `W i`,
`300 + i` for `b i`) for every conventional VGG16 parameter name. -/
def freshLoad : PKey → Option Nat := fun k =>
  match k with
  | PKey.W i => if 1 ≤ i ∧ i ≤ 16 then some (200 + i) else none
  | PKey.B i => if 1 ≤ i ∧ i ≤ 16 then some (300 + i) else none

/-- The VGG16 network state right after `load_params(freshLoad)`. -/
def vggLoaded : NetState := loadParams vgg16Init freshLoad

/-! ## accuracy_f1score (src/models/CNN.py lines 80-145; the identical code
appears in src/models/VGG16.py lines 112-174)

The network's per-sample predicted class is abstracted as `pred : Nat → Nat`
and the (already argmaxed) labels as `t : Nat → Nat`; `N` is `x.shape[0]`
and `bs` the `batch_size` argument.  The batch loop
`for i in range(int(x.shape[0] / batch_size))` visits exactly the sample
indices `j < (N / bs) * bs`. -/

/-- One increment of the confusion matrix:
`confusion_matrix[tt[j]][y[j]] += 1` (src/models/CNN.py lines 107-108). -/
def cmStep (t pred : Nat → Nat) (cm : Nat → Nat → Nat) (j : Nat) : Nat → Nat → Nat :=
  fun a p => cm a p + if a = t j ∧ p = pred j then 1 else 0

/-- The confusion matrix built by the batch loop over the first `M` sample
indices, starting from `np.zeros((labels, labels))`
(src/models/CNN.py lines 93-108). -/
def cmBuild (t pred : Nat → Nat) (M : Nat) : Nat → Nat → Nat :=
  (List.range M).foldl (cmStep t pred) (fun _ _ => 0)

/-- The number of samples the batch loop actually counts:
`int(x.shape[0] / batch_size)` full batches of `bs` samples
(src/models/CNN.py line 96).  (`bs = 0` would raise `ZeroDivisionError`
in the source; the claims below always have `bs > 0`.) -/
def countedOf (N bs : Nat) : Nat := N / bs * bs

/-- The confusion matrix produced by one `accuracy_f1score` call. -/
def cmOf (t pred : Nat → Nat) (N bs : Nat) : Nat → Nat → Nat :=
  cmBuild t pred (countedOf N bs)

/-- `accuracy`: the diagonal sum divided by `x.shape[0]`
(src/models/CNN.py lines 111-114). -/
def accuracyOf (labels : Nat) (t pred : Nat → Nat) (N bs : Nat) : ℚ :=
  (∑ i ∈ Finset.range labels, (cmOf t pred N bs i i : ℚ)) / (N : ℚ)

/-- `precision_devider[i] = np.sum(confusion_matrix, axis=0)[i]`: the
column sum (src/models/CNN.py line 118). -/
def colSumOf (labels : Nat) (cm : Nat → Nat → Nat) (i : Nat) : Nat :=
  ∑ a ∈ Finset.range labels, cm a i

/-- `recall_devider[i] = np.sum(confusion_matrix, axis=1)[i]`: the row sum
(src/models/CNN.py line 131). -/
def rowSumOf (labels : Nat) (cm : Nat → Nat → Nat) (i : Nat) : Nat :=
  ∑ p ∈ Finset.range labels, cm i p

/-- Per-class precision with the zero-denominator guard
(src/models/CNN.py lines 121-126). -/
def precisionAt (labels : Nat) (cm : Nat → Nat → Nat) (i : Nat) : ℚ :=
  if colSumOf labels cm i = 0 then 0 else (cm i i : ℚ) / (colSumOf labels cm i : ℚ)

/-- Per-class recall with the zero-denominator guard
(src/models/CNN.py lines 134-139). -/
def recallAt (labels : Nat) (cm : Nat → Nat → Nat) (i : Nat) : ℚ :=
  if rowSumOf labels cm i = 0 then 0 else (cm i i : ℚ) / (rowSumOf labels cm i : ℚ)

/-- `precision_avg = np.mean(precision)` (src/models/CNN.py line 127). -/
def precisionAvgOf (labels : Nat) (t pred : Nat → Nat) (N bs : Nat) : ℚ :=
  (∑ i ∈ Finset.range labels, precisionAt labels (cmOf t pred N bs) i) / (labels : ℚ)

/-- `recall_avg = np.mean(recall)` (src/models/CNN.py line 140). -/
def recallAvgOf (labels : Nat) (t pred : Nat → Nat) (N bs : Nat) : ℚ :=
  (∑ i ∈ Finset.range labels, recallAt labels (cmOf t pred N bs) i) / (labels : ℚ)

/-- An IEEE-754 floating value as far as the claims need it: an exact
number, `nan`, or a signed infinity. -/
inductive PyFloat where
  | num (q : ℚ)
  | nan
  | inf
  | ninf
  deriving DecidableEq

/-- numpy float division: `0/0` is `nan`, `±a/0` is a signed infinity
(a `RuntimeWarning`, not an exception), otherwise exact. -/
def pyDivQ (a b : ℚ) : PyFloat :=
  if b = 0 then
    if a = 0 then PyFloat.nan else if 0 < a then PyFloat.inf else PyFloat.ninf
  else PyFloat.num (a / b)

/-- `f1score = 2 * precision_avg * recall_avg / (precision_avg + recall_avg)`
— the final combination, with no guard on the denominator
(src/models/CNN.py line 143). -/
def f1Of (labels : Nat) (t pred : Nat → Nat) (N bs : Nat) : PyFloat :=
  pyDivQ (2 * precisionAvgOf labels t pred N bs * recallAvgOf labels t pred N bs)
    (precisionAvgOf labels t pred N bs + recallAvgOf labels t pred N bs)

/-! ## Relu.backward (src/common/layers.py lines 20-24)

`dout[self.mask] = 0` is an in-place item assignment on the caller's
tensor, and `dx = dout` returns the very same object.  Tensor objects are
modelled by a store from object ids to flattened payloads. -/

/-- The heap of tensor objects: object id to flattened payload. -/
def Store : Type := Nat → List ℚ

/-- Overwrite one object's payload in the store. -/
def storeSet (σ : Store) (i : Nat) (v : List ℚ) : Store :=
  fun j => if j = i then v else σ j

/-- `out[mask] = 0`: zero the entries selected by the boolean mask. -/
def zeroMasked (mask : List Bool) (xs : List ℚ) : List ℚ :=
  List.zipWith (fun m v => if m then 0 else v) mask xs

/-- `Relu.forward` (src/common/layers.py lines 13-18): caches the mask
`x <= 0`, clones `x` into a fresh object `fresh`, zeroes the masked entries
of the clone, and returns it.  Result: updated store, id of the returned
tensor, cached mask. -/
def reluForwardStep (σ : Store) (xId fresh : Nat) : Store × Nat × List Bool :=
  let mask := (σ xId).map (fun v => decide (v ≤ 0))
  (storeSet σ fresh (zeroMasked mask (σ xId)), fresh, mask)

/-- `Relu.backward` (src/common/layers.py lines 20-24): `dout[mask] = 0`
mutates the argument object in place, and the same object id is returned
as the gradient. -/
def reluBackwardStep (mask : List Bool) (σ : Store) (doutId : Nat) : Store × Nat :=
  (storeSet σ doutId (zeroMasked mask (σ doutId)), doutId)

/-! ## BatchNormalization.__forward (src/common/layers.py lines 116-173)

The 2-D input `x` of shape (batch, features) is modelled as a matrix over
`ℝ` (the layer's arithmetic contains a square root).  The layer instance's
mutable attributes are a `BNState`; `__forward` returns the output matrix
together with the updated state. -/

/-- A real matrix with explicit extents and a total indexing function. -/
structure MatR where
  rows : Nat
  cols : Nat
  val : Nat → Nat → ℝ

/-- The epsilon constant as written in the source: `10e-7`
(src/common/layers.py lines 155 and 170), whose value is 1e-6. -/
noncomputable def bnEps : ℝ := 10 / 10 ^ 7

/-- The epsilon the specification states: `ε = 1e-7`. -/
noncomputable def specEps : ℝ := 1 / 10 ^ 7

/-- The mutable attributes of a `BatchNormalization` instance
(src/common/layers.py lines 117-133). -/
structure BNState where
  gamma : Nat → ℝ
  beta : Nat → ℝ
  momentum : ℝ
  running_mean : Option (Nat → ℝ)
  running_var : Option (Nat → ℝ)
  batch_size : Option Nat
  xc : Option (Nat → Nat → ℝ)
  xn : Option (Nat → Nat → ℝ)
  std : Option (Nat → ℝ)

/-- `mu = torch.mean(x, dim=0)` (src/common/layers.py line 152). -/
noncomputable def bnMean (x : MatR) (j : Nat) : ℝ :=
  (∑ i ∈ Finset.range x.rows, x.val i j) / (x.rows : ℝ)

/-- `BatchNormalization.__forward` (src/common/layers.py lines 144-173),
translated statement by statement:
lazy zero-initialization of the running statistics when they are `None`;
then `if train_flg or self.batch_size is None:` compute batch mean,
centered input, variance, `std = sqrt(var + 10e-7)`, normalized input, and
populate the backward cache, updating the running statistics only under
the inner `if train_flg:`; `else:` normalize with the stored running
statistics; finally `out = gamma * xn + beta`. -/
noncomputable def bnForwardCore (st : BNState) (x : MatR) (train_flg : Bool) :
    MatR × BNState :=
  let st1 :=
    match st.running_mean with
    | none => { st with running_mean := some (fun _ => 0),
                        running_var := some (fun _ => 0) }
    | some _ => st
  if train_flg || st1.batch_size.isNone then
    let mu := fun j => bnMean x j
    let xc := fun i j => x.val i j - mu j
    let var := fun j => (∑ i ∈ Finset.range x.rows, (xc i j) ^ 2) / (x.rows : ℝ)
    let std := fun j => Real.sqrt (var j + bnEps)
    let xn := fun i j => xc i j / std j
    let st2 := { st1 with batch_size := some x.rows, xc := some xc,
                          xn := some xn, std := some std }
    let st3 :=
      if train_flg then
        { st2 with
          running_mean := some (fun j =>
            st.momentum * ((st1.running_mean.getD (fun _ => 0)) j)
              + (1 - st.momentum) * mu j),
          running_var := some (fun j =>
            st.momentum * ((st1.running_var.getD (fun _ => 0)) j)
              + (1 - st.momentum) * var j) }
      else st2
    (⟨x.rows, x.cols, fun i j => st.gamma j * xn i j + st.beta j⟩, st3)
  else
    let rm := st1.running_mean.getD (fun _ => 0)
    let rv := st1.running_var.getD (fun _ => 0)
    let xn := fun i j => (x.val i j - rm j) / Real.sqrt (rv j + bnEps)
    (⟨x.rows, x.cols, fun i j => st.gamma j * xn i j + st.beta j⟩, st1)

/-- The specification's per-feature batch mean, written from the spec's
words for comparison with the source translation. -/
noncomputable def bnMeanSpec (x : MatR) (j : Nat) : ℝ :=
  (∑ i ∈ Finset.range x.rows, x.val i j) / (x.rows : ℝ)

/-- The specification's per-feature batch variance (mean squared
deviation), written from the spec's words. -/
noncomputable def bnVarSpec (x : MatR) (j : Nat) : ℝ :=
  (∑ i ∈ Finset.range x.rows, (x.val i j - bnMeanSpec x j) ^ 2) / (x.rows : ℝ)

/-- The training-mode normalization the specification describes:
`gamma · (x − mu)/sqrt(var + eps) + beta`, with the epsilon an explicit
parameter. -/
noncomputable def bnTrainSpec (eps : ℝ) (gamma beta : Nat → ℝ) (x : MatR)
    (i j : Nat) : ℝ :=
  gamma j * ((x.val i j - bnMeanSpec x j) / Real.sqrt (bnVarSpec x j + eps)) + beta j

/-- The inference-mode normalization the specification describes:
normalize with the stored running statistics. -/
noncomputable def bnInferSpec (gamma beta : Nat → ℝ) (rm rv : Nat → ℝ) (x : MatR)
    (i j : Nat) : ℝ :=
  gamma j * ((x.val i j - rm j) / Real.sqrt (rv j + bnEps)) + beta j

/-- A freshly constructed layer state (gamma 1, beta 0, momentum 0.9) whose
running statistics are already initialized but whose backward cache is
still empty — i.e. no forward call has happened yet beyond the lazy
initialization. -/
noncomputable def stC2 : BNState :=
  ⟨fun _ => 1, fun _ => 0, 9 / 10, some (fun _ => 0), some (fun _ => 0),
    none, none, none, none⟩

/-- A 2×1 inference batch `[[2], [4]]` for the C2 counterexample. -/
noncomputable def xC2 : MatR := ⟨2, 1, fun i _ => if i = 0 then 2 else 4⟩

/-- Layer state for the C2 witness: the cache has been populated by an
earlier forward call (`batch_size = some 1`), running mean 2 and running
variance 3. -/
noncomputable def stC2W : BNState :=
  ⟨fun _ => 1, fun _ => 0, 9 / 10, some (fun _ => 2), some (fun _ => 3),
    some 1, some (fun _ _ => 0), some (fun _ _ => 0), some (fun _ => 1)⟩

/-- A 1×1 batch `[[5]]` for the C2 witness. -/
noncomputable def xC2W : MatR := ⟨1, 1, fun _ _ => 5⟩

/-- A fresh layer state (gamma 1, beta 0) for the C5 counterexample. -/
noncomputable def stC5 : BNState :=
  ⟨fun _ => 1, fun _ => 0, 9 / 10, none, none, none, none, none, none⟩

/-- A 2×1 training batch `[[0], [2]]` (mean 1, variance 1) for the C5
counterexample. -/
noncomputable def xC5 : MatR := ⟨2, 1, fun i _ => if i = 0 then 0 else 2⟩

/-! ## Convolution.forward output shape (src/common/layers.py lines 219-235)

The claim is about the output *shape*, so the forward pass is embedded at
the level of shape bookkeeping, with every step that can fail in
numpy/torch (matmul inner dimension, broadcast of the bias, `reshape` with
an inferred `-1` dimension) returning `none` where the source would raise. -/

/-- `out_h = 1 + int((H + 2*self.pad - FH) / self.stride)`
(src/common/layers.py line 222): exact division followed by Python `int()`
truncation toward zero, modelled with `Int.tdiv`. -/
def convOutHI (H pad FH stride : Nat) : Int :=
  1 + Int.tdiv ((H : Int) + 2 * (pad : Int) - (FH : Int)) (stride : Int)

/-- Modelled from the spec: the shape of `im2col(x, FH, FW, stride, pad)`
(common/util.py is absent from src).  Per the spec glossary and section
4.3, im2col lays each receptive-field window out as one row: rows =
`N · out_h · out_w`, columns = `C · FH · FW`, with
`out = floor((H + 2·pad − FH)/stride) + 1`. -/
def im2colShape (N C H W FH FW stride pad : Nat) : Nat × Nat :=
  (N * ((H + 2 * pad - FH) / stride + 1) * ((W + 2 * pad - FW) / stride + 1),
    C * FH * FW)

/-- The shape pipeline of `Convolution.forward`
(src/common/layers.py lines 219-235), for a weight tensor of shape
`(FN, CW, FH, FW)`, bias of length `bLen`, and input of shape
`(N, Cx, H, W)`:
`col = im2col(x, FH, FW, stride, pad)`;
`col_W = self.W.reshape(FN, -1).T` (shape `(CW·FH·FW, FN)`, the inferred
`-1` needs `FN ≠ 0`);
`out = torch.matmul(col, col_W) + self.b` (inner dimensions must agree,
the bias must broadcast over the columns);
`out = out.reshape(N, out_h, out_w, -1).permute(0, 3, 1, 2)` (the inferred
`-1` needs a positive known-dimension product dividing the element
count).  A zero stride would raise `ZeroDivisionError` at the out_h
computation, hence the initial guard. -/
def convForwardShape (FN CW FH FW bLen stride pad N Cx H W : Nat) :
    Option (Nat × Nat × Nat × Nat) :=
  let ohI := convOutHI H pad FH stride
  let owI := convOutHI W pad FW stride
  let rc := im2colShape N Cx H W FH FW stride pad
  if stride = 0 then none
  else if FN = 0 then none
  else if rc.2 ≠ CW * FH * FW then none
  else if bLen ≠ FN ∧ bLen ≠ 1 then none
  else if ohI < 0 ∨ owI < 0 then none
  else
    let oh := ohI.toNat
    let ow := owI.toNat
    let total := rc.1 * FN
    if N * oh * ow = 0 then none
    else if N * oh * ow ∣ total then some (N, total / (N * oh * ow), oh, ow)
    else none

/-! ## Pooling (src/common/layers.py lines 253-296)

A 4-D tensor is a shape plus a total indexing function.  The forward pass
expands the input into per-window rows (`im2col` followed by
`reshape(-1, pool_h*pool_w)`), records each window's argmax, and takes the
per-window max; the rows are indexed structurally by `(n, oh, ow, c)` and
the within-row position by `kh * pool_w + kw`, matching the flat row-major
layout the source's reshapes produce.  `backward` scatters the (permuted)
upstream gradient into a zero matrix at the recorded argmax positions and
feeds the result through `col2im`. -/

/-- A 4-D tensor (batch, channel, height, width) with a total indexing
function. -/
structure Tensor4 where
  n : Nat
  c : Nat
  h : Nat
  w : Nat
  val : Nat → Nat → Nat → Nat → ℚ

/-- Reading the zero-padded input at padded coordinates `(i, j)`. -/
def padAt (x : Tensor4) (pad n c i j : Nat) : ℚ :=
  if pad ≤ i ∧ i - pad < x.h ∧ pad ≤ j ∧ j - pad < x.w then
    x.val n c (i - pad) (j - pad)
  else 0

/-- One row of the reshaped column matrix
`im2col(x, pool_h, pool_w, stride, pad).reshape(-1, pool_h*pool_w)`
(src/common/layers.py lines 268-269): the flattened values of the window
at `(oh, ow)` of sample `n`, channel `c`, in row-major `(kh, kw)` order.
The window extraction itself is `Modelled from the spec` (im2col lives in
common/util.py, absent from src): per the spec glossary each window's
receptive field is laid out as one row of the column matrix. -/
def poolWindow (x : Tensor4) (ph pw stride pad n c oh ow : Nat) : List ℚ :=
  (List.range (ph * pw)).map
    (fun k => padAt x pad n c (oh * stride + k / pw) (ow * stride + k % pw))

/-- `torch.argmax(col, dim=1)` per row: the first index attaining the
maximum. -/
def listArgmax (l : List ℚ) : Nat :=
  (List.range l.length).foldl
    (fun best i => if l.getD best 0 < l.getD i 0 then i else best) 0

/-- The per-window argmax recorded by `Pooling.forward`
(src/common/layers.py line 271) for the window `(n, c, oh, ow)`. -/
def poolArgmax (x : Tensor4) (ph pw stride pad n c oh ow : Nat) : Nat :=
  listArgmax (poolWindow x ph pw stride pad n c oh ow)

/-- `out_h = int(1 + (H - self.pool_h) / self.stride)`
(src/common/layers.py line 265): exact division and Python `int()`
truncation toward zero; `1 + (H - ph)/s = (s + H - ph)/s` exactly, so the
truncation is `Int.tdiv`; a negative result would make the later reshape
raise, modelled by clamping with `toNat`. -/
def poolOutH (H ph stride : Nat) : Nat :=
  (Int.tdiv ((stride : Int) + (H : Int) - (ph : Int)) (stride : Int)).toNat

/-- `torch.max(col, dim=1)[0]` per row. -/
def windowMax (l : List ℚ) : ℚ := l.foldl max (l.headD 0)

/-- `Pooling.forward` output (src/common/layers.py lines 263-278): the
per-window maxima arranged as `(N, C, out_h, out_w)`. -/
def poolForwardOut (x : Tensor4) (ph pw stride pad : Nat) : Tensor4 :=
  ⟨x.n, x.c, poolOutH x.h ph stride, poolOutH x.w pw stride,
    fun n c oh ow => windowMax (poolWindow x ph pw stride pad n c oh ow)⟩

/-- The scatter `dmax[torch.arange(size), arg_max] = dout_permuted`
(src/common/layers.py lines 285-290): row `(n, oh, ow, c)` of the zero
matrix receives the upstream gradient of its window at column `j` exactly
when `j` is the recorded argmax (`dout.permute(0, 2, 3, 1)` aligns the
upstream gradient with the row order, so the row's value is
`dout[n][c][oh][ow]`). -/
def poolDmax (x : Tensor4) (ph pw stride pad : Nat) (dout : Tensor4)
    (n oh ow c j : Nat) : ℚ :=
  if j = poolArgmax x ph pw stride pad n c oh ow then dout.val n c oh ow else 0

/-- Modelled from the spec: `col2im(dcol, input_shape, fh, fw, stride,
pad)` (common/util.py, absent from src) — per the spec glossary and
section 4.3 it inverse-scatters column entries back into spatial
positions, summing the contributions of all overlapping receptive fields;
entry `(hh, ww)` of the output collects every kernel cell `(kh, kw)` of
every window `(oh, ow)` that maps onto padded position
`(hh + pad, ww + pad)`.  The column matrix is indexed structurally:
row `(n, oh, ow)`, column `(c, kh, kw)`. -/
def col2im (H W ph pw stride pad : Nat)
    (dcol : Nat → Nat → Nat → Nat → Nat → Nat → ℚ) (n c hh ww : Nat) : ℚ :=
  ∑ oh ∈ Finset.range ((H + 2 * pad - ph) / stride + 1),
    ∑ ow ∈ Finset.range ((W + 2 * pad - pw) / stride + 1),
      ∑ kh ∈ Finset.range ph,
        ∑ kw ∈ Finset.range pw,
          if oh * stride + kh = hh + pad ∧ ow * stride + kw = ww + pad then
            dcol n oh ow c kh kw
          else 0

/-- `Pooling.backward` (src/common/layers.py lines 280-296): scatter the
permuted upstream gradient into the argmax positions (`poolDmax`), regroup
the result as a column matrix (row `(n, oh, ow)`, column
`(c, kh, kw) = c · pool_size + kh · pool_w + kw`, the source's
`dmax.reshape(...)` steps), and inverse-scatter through `col2im`. -/
def poolBackward (x : Tensor4) (ph pw stride pad : Nat) (dout : Tensor4) : Tensor4 :=
  ⟨x.n, x.c, x.h, x.w,
    fun n c hh ww =>
      col2im x.h x.w ph pw stride pad
        (fun n2 oh ow c2 kh kw => poolDmax x ph pw stride pad dout n2 oh ow c2 (kh * pw + kw))
        n c hh ww⟩

/-! ## Theorems -/

/-- Claim C1 (code bug evidence): with a cached one-hot floating target of
the same total element count as the softmax output but a distinct tensor
object, `SoftmaxWithLoss.backward` does not return `(y − t)/batch_size`:
the guard `self.t.size == self.y.size` compares bound methods (false for
distinct objects), so the integer-index branch runs and raises an
`IndexError` because a floating tensor is used as an index.  The
specification's promised gradient at this input would be `[[-1/2, 1/2]]`. -/
theorem softmax_backward_onehot_raises :
    softmaxBackwardCode yC1 tC1 = Except.error TorchErr.floatIndexTensor
      ∧ specOneHotGrad [[1/2, 1/2]] [[1, 0]] 1 = [[-(1/2 : ℚ), 1/2]] := by
  constructor
  · rfl
  · norm_num [specOneHotGrad]

/-- Claim C3 (code bug evidence): after `VGG16.load_params` on a parameter
file with fresh tensors, the invariant fails: layer `Conv2` still holds its
stale pre-load tensor rather than the object now stored under `W2`, and
layer `Affine1` is bound to `params[W2]` (a convolution weight) instead of
`params[W14]`. -/
theorem vgg16_load_params_stale_bindings :
    vggLoaded.layerW (LKey.Conv 2) ≠ vggLoaded.params (PKey.W 2)
      ∧ vggLoaded.layerW (LKey.Affine 1) = vggLoaded.params (PKey.W 2)
      ∧ vggLoaded.layerW (LKey.Affine 1) ≠ vggLoaded.params (PKey.W 14) := by
  refine ⟨?_, rfl, ?_⟩ <;> decide

/-- The batch loop's confusion matrix counts, for each cell `(a, p)`, the
sample indices among the first `M` whose label is `a` and prediction `p`. -/
theorem cmBuild_eq_count (t pred : Nat → Nat) (M a p : Nat) :
    cmBuild t pred M a p =
      ((Finset.range M).filter (fun j => t j = a ∧ pred j = p)).card := by
  induction M with
  | zero => simp [cmBuild]
  | succ m ih =>
    have hfold : cmBuild t pred (m + 1) = cmStep t pred (cmBuild t pred m) m := by
      simp [cmBuild, List.range_succ]
    rw [hfold, Finset.range_succ, Finset.filter_insert]
    by_cases h : t m = a ∧ pred m = p
    · rw [if_pos h]
      obtain ⟨ha, hp⟩ := h
      subst ha; subst hp
      rw [Finset.card_insert_of_not_mem (by simp)]
      simp [cmStep, ih]
    · rw [if_neg h]
      have hne : ¬(a = t m ∧ p = pred m) := fun hc => h ⟨hc.1.symm, hc.2.symm⟩
      simp [cmStep, ih, hne]

/-- Claim C8: whenever a class's precision denominator (confusion-matrix
column sum) or recall denominator (row sum) is zero, the per-class
precision resp. recall computed by `accuracy_f1score` is 0, the guarded
branch never evaluating the division. -/
theorem precision_recall_zero_denominator (labels : Nat) (t pred : Nat → Nat)
    (N bs i : Nat) :
    (colSumOf labels (cmOf t pred N bs) i = 0 →
      precisionAt labels (cmOf t pred N bs) i = 0)
    ∧ (rowSumOf labels (cmOf t pred N bs) i = 0 →
      recallAt labels (cmOf t pred N bs) i = 0) := by
  constructor
  · intro h; simp [precisionAt, h]
  · intro h; simp [recallAt, h]

/-- Witness for C8: one sample of class 0 predicted as class 0 with two
classes; class 1 has zero predicted and zero true instances, and its
precision and recall are 0. -/
theorem precision_recall_zero_denominator_witness :
    precisionAt 2 (cmOf (fun _ => 0) (fun _ => 0) 1 1) 1 = 0
      ∧ recallAt 2 (cmOf (fun _ => 0) (fun _ => 0) 1 1) 1 = 0 := by
  have h := precision_recall_zero_denominator 2 (fun _ => 0) (fun _ => 0) 1 1 1
  refine ⟨h.1 ?_, h.2 ?_⟩ <;>
    simp [colSumOf, rowSumOf, cmOf, countedOf, cmBuild, cmStep,
      Finset.sum_range_succ, List.range_succ]

/-- With predictions that agree with the labels on the counted samples,
every off-diagonal confusion-matrix entry is zero. -/
theorem cmBuild_perfect_offdiag (t pred : Nat → Nat) (M a p : Nat)
    (hperf : ∀ j, j < M → pred j = t j) (hne : a ≠ p) :
    cmBuild t pred M a p = 0 := by
  rw [cmBuild_eq_count, Finset.card_eq_zero, Finset.filter_eq_empty_iff]
  intro j hj
  rw [Finset.mem_range] at hj
  rw [hperf j hj]
  rintro ⟨h1, h2⟩
  exact hne (h1.symm.trans h2)

/-- With perfect predictions the diagonal entry of class `i` counts the
samples labelled `i`. -/
theorem cmBuild_perfect_diag (t pred : Nat → Nat) (M i : Nat)
    (hperf : ∀ j, j < M → pred j = t j) :
    cmBuild t pred M i i = ((Finset.range M).filter (fun j => t j = i)).card := by
  rw [cmBuild_eq_count]
  congr 1
  apply Finset.filter_congr
  intro j hj
  rw [Finset.mem_range] at hj
  simp [hperf j hj]

/-- Partitioning the counted samples by their (in-range) label. -/
theorem sum_label_counts (labels M : Nat) (t : Nat → Nat)
    (ht : ∀ j, j < M → t j < labels) :
    ∑ i ∈ Finset.range labels, ((Finset.range M).filter (fun j => t j = i)).card = M := by
  have h1 : ∀ i, ((Finset.range M).filter (fun j => t j = i)).card =
      ∑ j ∈ Finset.range M, if t j = i then 1 else 0 := fun i => Finset.card_filter _ _
  simp only [h1]
  rw [Finset.sum_comm]
  have h2 : ∀ j ∈ Finset.range M,
      (∑ i ∈ Finset.range labels, if t j = i then 1 else 0) = 1 := by
    intro j hj
    rw [Finset.sum_ite_eq]
    exact if_pos (Finset.mem_range.mpr (ht j (Finset.mem_range.mp hj)))
  rw [Finset.sum_congr rfl h2]
  simp

/-- Claim C4 is false as stated: `accuracy_f1score` does not return
accuracy 1 and F1 1 for every perfectly predicted input set.  First input:
one sample, `batch_size = 2` — the batch loop counts no sample, yet the
accuracy denominator is `x.shape[0] = 1`, so accuracy is 0.  Second input:
one sample of class 0 out of two classes with `batch_size = 1` — all
predictions correct, but the absent class contributes precision and recall
0 to the macro averages, so F1 is 1/2. -/
theorem accuracy_f1_perfect_claim_false :
    accuracyOf 1 (fun _ => 0) (fun _ => 0) 1 2 ≠ 1
    ∧ f1Of 2 (fun _ => 0) (fun _ => 0) 1 1 ≠ PyFloat.num 1 := by
  constructor
  · simp [accuracyOf, cmOf, countedOf, cmBuild]
  · have c00 : cmOf (fun _ => 0) (fun _ => 0) 1 1 0 0 = 1 := by decide
    have c11 : cmOf (fun _ => 0) (fun _ => 0) 1 1 1 1 = 0 := by decide
    have s0 : colSumOf 2 (cmOf (fun _ => 0) (fun _ => 0) 1 1) 0 = 1 := by decide
    have s1 : colSumOf 2 (cmOf (fun _ => 0) (fun _ => 0) 1 1) 1 = 0 := by decide
    have r0 : rowSumOf 2 (cmOf (fun _ => 0) (fun _ => 0) 1 1) 0 = 1 := by decide
    have r1 : rowSumOf 2 (cmOf (fun _ => 0) (fun _ => 0) 1 1) 1 = 0 := by decide
    have p0 : precisionAt 2 (cmOf (fun _ => 0) (fun _ => 0) 1 1) 0 = 1 := by
      rw [precisionAt, s0, c00]; norm_num
    have p1 : precisionAt 2 (cmOf (fun _ => 0) (fun _ => 0) 1 1) 1 = 0 := by
      rw [precisionAt, s1]; norm_num
    have q0 : recallAt 2 (cmOf (fun _ => 0) (fun _ => 0) 1 1) 0 = 1 := by
      rw [recallAt, r0, c00]; norm_num
    have q1 : recallAt 2 (cmOf (fun _ => 0) (fun _ => 0) 1 1) 1 = 0 := by
      rw [recallAt, r1]; norm_num
    have hpa : precisionAvgOf 2 (fun _ => 0) (fun _ => 0) 1 1 = 1/2 := by
      rw [precisionAvgOf, Finset.sum_range_succ, Finset.sum_range_succ,
        Finset.sum_range_zero, p0, p1]
      norm_num
    have hra : recallAvgOf 2 (fun _ => 0) (fun _ => 0) 1 1 = 1/2 := by
      rw [recallAvgOf, Finset.sum_range_succ, Finset.sum_range_succ,
        Finset.sum_range_zero, q0, q1]
      norm_num
    have h : f1Of 2 (fun _ => 0) (fun _ => 0) 1 1 = PyFloat.num (1/2) := by
      rw [f1Of, hpa, hra]
      norm_num [pyDivQ]
    rw [h]
    intro hc
    rw [PyFloat.num.injEq] at hc
    norm_num at hc

/-- Claim C4 as amended: on a perfectly predicted input set whose size is
a positive multiple of `batch_size`, `accuracy_f1score` counts every
sample (the denominator `x.shape[0]` agrees with the number of counted
samples), returns accuracy 1, and a confusion matrix with all off-diagonal
entries zero; if additionally every class occurs among the labels, the
returned F1 is exactly 1. -/
theorem accuracy_f1_on_perfect_batches (labels N bs : Nat) (t pred : Nat → Nat)
    (hperf : ∀ j, j < N → pred j = t j)
    (ht : ∀ j, j < N → t j < labels)
    (hdvd : bs ∣ N) (hN : 0 < N) :
    countedOf N bs = N
    ∧ accuracyOf labels t pred N bs = 1
    ∧ (∀ a p, a ≠ p → cmOf t pred N bs a p = 0)
    ∧ ((∀ c, c < labels → ∃ j, j < N ∧ t j = c) →
        f1Of labels t pred N bs = PyFloat.num 1) := by
  have hM : countedOf N bs = N := by
    unfold countedOf
    exact Nat.div_mul_cancel hdvd
  have hcm : cmOf t pred N bs = cmBuild t pred N := by rw [cmOf, hM]
  have hoff : ∀ a p, a ≠ p → cmOf t pred N bs a p = 0 := by
    intro a p hne
    rw [hcm]
    exact cmBuild_perfect_offdiag t pred N a p hperf hne
  have hdiagsum : ∑ i ∈ Finset.range labels, cmBuild t pred N i i = N := by
    have h1 : ∀ i ∈ Finset.range labels, cmBuild t pred N i i =
        ((Finset.range N).filter (fun j => t j = i)).card := by
      intro i _
      exact cmBuild_perfect_diag t pred N i hperf
    rw [Finset.sum_congr rfl h1]
    exact sum_label_counts labels N t ht
  have hacc : accuracyOf labels t pred N bs = 1 := by
    unfold accuracyOf
    rw [hcm]
    rw [show (∑ i ∈ Finset.range labels, (cmBuild t pred N i i : ℚ)) = ((N : ℕ) : ℚ) by
      rw [← Nat.cast_sum, hdiagsum]]
    exact div_self (by exact_mod_cast hN.ne')
  refine ⟨hM, hacc, hoff, ?_⟩
  intro hcov
  have hlab : 0 < labels := lt_of_le_of_lt (Nat.zero_le _) (ht 0 hN)
  have hdiagpos : ∀ i, i < labels → 0 < cmOf t pred N bs i i := by
    intro i _
    rw [hcm, cmBuild_perfect_diag t pred N i hperf]
    obtain ⟨j, hj, hji⟩ := hcov i (by assumption)
    exact Finset.card_pos.mpr ⟨j, Finset.mem_filter.mpr ⟨Finset.mem_range.mpr hj, hji⟩⟩
  have hcol : ∀ i, i < labels →
      colSumOf labels (cmOf t pred N bs) i = cmOf t pred N bs i i := by
    intro i hi
    unfold colSumOf
    apply Finset.sum_eq_single_of_mem i (Finset.mem_range.mpr hi)
    intro b _ hne
    exact hoff b i hne
  have hrow : ∀ i, i < labels →
      rowSumOf labels (cmOf t pred N bs) i = cmOf t pred N bs i i := by
    intro i hi
    unfold rowSumOf
    apply Finset.sum_eq_single_of_mem i (Finset.mem_range.mpr hi)
    intro p _ hne
    exact hoff i p (Ne.symm hne)
  have hprec : ∀ i ∈ Finset.range labels,
      precisionAt labels (cmOf t pred N bs) i = 1 := by
    intro i hi
    rw [Finset.mem_range] at hi
    unfold precisionAt
    rw [hcol i hi, if_neg (hdiagpos i hi).ne']
    exact div_self (by exact_mod_cast (hdiagpos i hi).ne')
  have hrec : ∀ i ∈ Finset.range labels,
      recallAt labels (cmOf t pred N bs) i = 1 := by
    intro i hi
    rw [Finset.mem_range] at hi
    unfold recallAt
    rw [hrow i hi, if_neg (hdiagpos i hi).ne']
    exact div_self (by exact_mod_cast (hdiagpos i hi).ne')
  have hpavg : precisionAvgOf labels t pred N bs = 1 := by
    unfold precisionAvgOf
    rw [Finset.sum_congr rfl hprec]
    simp
    exact div_self (by exact_mod_cast hlab.ne')
  have hravg : recallAvgOf labels t pred N bs = 1 := by
    unfold recallAvgOf
    rw [Finset.sum_congr rfl hrec]
    simp
    exact div_self (by exact_mod_cast hlab.ne')
  rw [f1Of, hpavg, hravg]
  norm_num [pyDivQ]

/-- Witness for the amended C4: one sample of class 0, one class,
`batch_size = 1`: every sample is counted, accuracy is 1 and F1 is 1. -/
theorem accuracy_f1_on_perfect_batches_witness :
    countedOf 1 1 = 1
    ∧ accuracyOf 1 (fun _ => 0) (fun _ => 0) 1 1 = 1
    ∧ f1Of 1 (fun _ => 0) (fun _ => 0) 1 1 = PyFloat.num 1 := by
  have h := accuracy_f1_on_perfect_batches 1 1 1 (fun _ => 0) (fun _ => 0)
    (fun _ _ => rfl) (fun _ _ => Nat.zero_lt_one) ⟨1, rfl⟩ Nat.zero_lt_one
  refine ⟨h.1, h.2.1, h.2.2.2 (fun c hc => ⟨0, Nat.zero_lt_one, ?_⟩)⟩
  have hc0 : c = 0 := Nat.lt_one_iff.mp hc
  simp [hc0]

/-- Claim C10: the final F1 combination has no zero-denominator guard:
whenever the macro-averaged precision and recall are both 0, the division
is `0/0` and `accuracy_f1score` returns a `nan` F1, not 0 and not an
error. -/
theorem f1_nan_on_zero_averages (labels : Nat) (t pred : Nat → Nat) (N bs : Nat)
    (hp : precisionAvgOf labels t pred N bs = 0)
    (hr : recallAvgOf labels t pred N bs = 0) :
    f1Of labels t pred N bs = PyFloat.nan := by
  simp [f1Of, hp, hr, pyDivQ]

/-- Witness for C10: one sample of class 0 predicted as class 1 (two
classes): no diagonal entry is nonzero, both averages are 0, and the
returned F1 is `nan`. -/
theorem f1_nan_on_zero_averages_witness :
    f1Of 2 (fun _ => 0) (fun _ => 1) 1 1 = PyFloat.nan := by
  have c00 : cmOf (fun _ => 0) (fun _ => 1) 1 1 0 0 = 0 := by decide
  have c11 : cmOf (fun _ => 0) (fun _ => 1) 1 1 1 1 = 0 := by decide
  have s0 : colSumOf 2 (cmOf (fun _ => 0) (fun _ => 1) 1 1) 0 = 0 := by decide
  have s1 : colSumOf 2 (cmOf (fun _ => 0) (fun _ => 1) 1 1) 1 = 1 := by decide
  have r0 : rowSumOf 2 (cmOf (fun _ => 0) (fun _ => 1) 1 1) 0 = 1 := by decide
  have r1 : rowSumOf 2 (cmOf (fun _ => 0) (fun _ => 1) 1 1) 1 = 0 := by decide
  have p0 : precisionAt 2 (cmOf (fun _ => 0) (fun _ => 1) 1 1) 0 = 0 := by
    rw [precisionAt, s0]; norm_num
  have p1 : precisionAt 2 (cmOf (fun _ => 0) (fun _ => 1) 1 1) 1 = 0 := by
    rw [precisionAt, s1, c11]; norm_num
  have q0 : recallAt 2 (cmOf (fun _ => 0) (fun _ => 1) 1 1) 0 = 0 := by
    rw [recallAt, r0, c00]; norm_num
  have q1 : recallAt 2 (cmOf (fun _ => 0) (fun _ => 1) 1 1) 1 = 0 := by
    rw [recallAt, r1]; norm_num
  apply f1_nan_on_zero_averages
  · rw [precisionAvgOf, Finset.sum_range_succ, Finset.sum_range_succ,
      Finset.sum_range_zero, p0, p1]
    norm_num
  · rw [recallAvgOf, Finset.sum_range_succ, Finset.sum_range_succ,
      Finset.sum_range_zero, q0, q1]
    norm_num

/-- Entrywise description of the in-place masked zeroing. -/
theorem zeroMasked_getD (mask : List Bool) (xs : List ℚ)
    (hlen : mask.length = xs.length) (i : Nat) :
    (zeroMasked mask xs).getD i 0 =
      (if mask.getD i false then 0 else xs.getD i 0) := by
  induction mask generalizing xs i with
  | nil =>
    cases xs with
    | nil => simp [zeroMasked]
    | cons x xs => simp at hlen
  | cons m ms ih =>
    cases xs with
    | nil => simp at hlen
    | cons x xs =>
      cases i with
      | zero => simp [zeroMasked]
      | succ k =>
        have hlen2 : ms.length = xs.length := by simpa using hlen
        simpa [zeroMasked] using ih xs hlen2 k

/-- Claim C9: `Relu.backward` mutates its argument in place: the returned
gradient is the very same tensor object as `dout`, the payload of that
object after the call is the upstream gradient with the masked positions
zeroed, and no other object in the store is touched. -/
theorem relu_backward_in_place (mask : List Bool) (σ : Store) (doutId i : Nat)
    (hlen : mask.length = (σ doutId).length) :
    (reluBackwardStep mask σ doutId).2 = doutId
    ∧ ((reluBackwardStep mask σ doutId).1 doutId).getD i 0 =
        (if mask.getD i false then 0 else (σ doutId).getD i 0)
    ∧ (∀ oId, oId ≠ doutId → (reluBackwardStep mask σ doutId).1 oId = σ oId) := by
  refine ⟨rfl, ?_, ?_⟩
  · have hs : (reluBackwardStep mask σ doutId).1 doutId = zeroMasked mask (σ doutId) := by
      simp [reluBackwardStep, storeSet]
    rw [hs]
    exact zeroMasked_getD mask (σ doutId) hlen i
  · intro oId hne
    simp [reluBackwardStep, storeSet, hne]

/-- Witness for C9: with mask `[true, false]` and payload `[5, 7]`, the
call returns the same object id and that object's payload becomes `[0, 7]`
(position 0 zeroed, position 1 untouched). -/
theorem relu_backward_in_place_witness :
    (reluBackwardStep [true, false] (fun _ => [5, 7]) 0).2 = 0
    ∧ ((reluBackwardStep [true, false] (fun _ => [5, 7]) 0).1 0).getD 0 0 = 0
    ∧ ((reluBackwardStep [true, false] (fun _ => [5, 7]) 0).1 0).getD 1 0 = 7 := by
  have h0 := relu_backward_in_place [true, false] (fun _ => [5, 7]) 0 0 (by rfl)
  have h1 := relu_backward_in_place [true, false] (fun _ => [5, 7]) 0 1 (by rfl)
  exact ⟨h0.1, by simpa using h0.2.1, by simpa using h1.2.1⟩

/-- Claim C2 is false as stated: on a layer whose backward cache has never
been populated (`self.batch_size is None`), a forward call with
`train_flg=False` takes the batch-statistics branch (the source condition
is `if train_flg or self.batch_size is None:`) and *does* populate the
backward cache: afterwards `batch_size` is the batch size 2, no longer
`None`. -/
theorem bn_inference_first_call_populates_cache :
    (bnForwardCore stC2 xC2 false).2.batch_size = some 2
      ∧ stC2.batch_size = none := by
  constructor <;> rfl

/-- Claim C2 as amended: provided some earlier forward call has populated
the backward cache (`batch_size` is set), a forward call with
`train_flg=False` normalizes with the stored running mean/variance exactly
as the specification describes, and returns the layer state completely
unchanged — no running-statistics update and no cache population. -/
theorem bn_inference_uses_running_stats (st : BNState) (x : MatR)
    (rm rv : Nat → ℝ) (k : Nat)
    (h1 : st.running_mean = some rm) (h2 : st.running_var = some rv)
    (h3 : st.batch_size = some k) :
    (∀ i j, (bnForwardCore st x false).1.val i j =
      bnInferSpec st.gamma st.beta rm rv x i j)
    ∧ (bnForwardCore st x false).2 = st := by
  have hred : bnForwardCore st x false =
      (⟨x.rows, x.cols, fun i j =>
        st.gamma j * ((x.val i j - rm j) / Real.sqrt (rv j + bnEps)) + st.beta j⟩,
        st) := by
    simp [bnForwardCore, h1, h2, h3]
  constructor
  · intro i j
    rw [hred]
    simp [bnInferSpec]
  · rw [hred]

/-- Witness for the amended C2: a layer with cache populated (batch size 1
recorded), running mean 2 and running variance 3, on the batch `[[5]]`:
the output is the spec's running-statistics normalization and the state is
untouched. -/
theorem bn_inference_uses_running_stats_witness :
    (bnForwardCore stC2W xC2W false).1.val 0 0 =
      bnInferSpec stC2W.gamma stC2W.beta (fun _ => 2) (fun _ => 3) xC2W 0 0
    ∧ (bnForwardCore stC2W xC2W false).2 = stC2W := by
  have h := bn_inference_uses_running_stats stC2W xC2W
    (fun _ => 2) (fun _ => 3) 1 rfl rfl rfl
  exact ⟨h.1 0 0, h.2⟩

/-- Claim C5 is false as stated: on the training batch `[[0], [2]]`
(batch mean 1, batch variance 1, gamma 1, beta 0), the layer's output at
entry (0,0) is `-1/sqrt(1 + 10e-7)`, which differs from the claimed
normalization with `ε = 1e-7` — the source adds `10e-7`, i.e. 1e-6. -/
theorem bn_training_eps_not_1e7 :
    (bnForwardCore stC5 xC5 true).1.val 0 0 ≠
      bnTrainSpec specEps stC5.gamma stC5.beta xC5 0 0 := by
  have hL : (bnForwardCore stC5 xC5 true).1.val 0 0 =
      -(1 / Real.sqrt (1 + bnEps)) := by
    simp [bnForwardCore, stC5, xC5, bnMean, Finset.sum_range_succ]
    norm_num [neg_div, one_div]
  have hR : bnTrainSpec specEps stC5.gamma stC5.beta xC5 0 0 =
      -(1 / Real.sqrt (1 + specEps)) := by
    simp [bnTrainSpec, bnMeanSpec, bnVarSpec, stC5, xC5, Finset.sum_range_succ]
    norm_num [neg_div, one_div]
  rw [hL, hR]
  have hlt : Real.sqrt (1 + specEps) < Real.sqrt (1 + bnEps) :=
    Real.sqrt_lt_sqrt (by norm_num [specEps]) (by norm_num [specEps, bnEps])
  have hpos : 0 < Real.sqrt (1 + specEps) :=
    Real.sqrt_pos.mpr (by norm_num [specEps])
  have hdiv : 1 / Real.sqrt (1 + bnEps) < 1 / Real.sqrt (1 + specEps) :=
    one_div_lt_one_div_of_lt hpos hlt
  intro h
  exact absurd (neg_inj.mp h) (ne_of_lt hdiv)

/-- Claim C5 as amended: in training mode `BatchNormalization.__forward`
normalizes every entry as `gamma·(x − mu)/sqrt(var + ε) + beta` with the
epsilon fixed at exactly 1e-6 (the source literal `10e-7`). -/
theorem bn_training_normalization_eps (st : BNState) (x : MatR) (i j : Nat) :
    (bnForwardCore st x true).1.val i j =
      bnTrainSpec (1 / 10 ^ 6) st.gamma st.beta x i j := by
  have heps : bnEps = (1 / 10 ^ 6 : ℝ) := by norm_num [bnEps]
  cases hrm : st.running_mean with
  | none =>
    simp [bnForwardCore, hrm, heps, bnTrainSpec, bnMeanSpec, bnVarSpec, bnMean]
  | some rm =>
    simp [bnForwardCore, hrm, heps, bnTrainSpec, bnMeanSpec, bnVarSpec, bnMean]

/-- The source's truncated output-size computation agrees with the
floor-based formula whenever the (padded) kernel fits. -/
theorem convOutHI_eq (H pad FH stride : Nat) (hfh : FH ≤ H + 2 * pad) :
    convOutHI H pad FH stride = (((H + 2 * pad - FH) / stride + 1 : Nat) : Int) := by
  unfold convOutHI
  rw [show (H : Int) + 2 * (pad : Int) - (FH : Int) =
    ((H + 2 * pad - FH : Nat) : Int) by omega]
  rw [show Int.tdiv ((H + 2 * pad - FH : Nat) : Int) ((stride : Nat) : Int) =
    (((H + 2 * pad - FH) / stride : Nat) : Int) from rfl]
  push_cast
  ring

/-- Claim C6: for a 4-D input of shape `(N, Cx, H, W)` and a kernel
`(FN, CW, FH, FW)` with matching channels, fitting kernel, positive
stride, and a bias of length `FN`, `Convolution.forward` produces an
output of shape `(N, FN, out_h, out_w)` with
`out_h = ⌊(H + 2·pad − FH)/stride⌋ + 1` and symmetrically for the
width. -/
theorem conv_forward_output_shape (FN CW FH FW bLen stride pad N Cx H W : Nat)
    (hs : 0 < stride) (hFN : 0 < FN) (hN : 0 < N) (hC : Cx = CW) (hb : bLen = FN)
    (hfh : FH ≤ H + 2 * pad) (hfw : FW ≤ W + 2 * pad) :
    convForwardShape FN CW FH FW bLen stride pad N Cx H W =
      some (N, FN, (H + 2 * pad - FH) / stride + 1,
        (W + 2 * pad - FW) / stride + 1) := by
  have h1 := convOutHI_eq H pad FH stride hfh
  have h2 := convOutHI_eq W pad FW stride hfw
  have hprod : N * ((H + 2 * pad - FH) / stride + 1)
      * ((W + 2 * pad - FW) / stride + 1) ≠ 0 :=
    Nat.mul_ne_zero (Nat.mul_ne_zero hN.ne' (Nat.succ_ne_zero _)) (Nat.succ_ne_zero _)
  simp only [convForwardShape, im2colShape, h1, h2, Int.toNat_natCast]
  split_ifs with hc0 hc1 hc2 hc3 hc4 hc5
  · exact absurd hc0 hs.ne'
  · exact absurd hc1 hFN.ne'
  · exact absurd (show Cx * FH * FW = CW * FH * FW by rw [hC]) hc2
  · exact absurd hb hc3.1
  · rcases hc4 with h | h <;> exact absurd h (not_lt.mpr (Int.natCast_nonneg _))
  · rw [Nat.mul_div_cancel_left FN (Nat.pos_of_ne_zero hprod)]
  · exact absurd ⟨FN, rfl⟩ hc5

/-- Witness for C6: a 1×3×4×4 input through a 2-filter 1×1 kernel with
stride 1, pad 0 yields the shape `(1, 2, 4, 4)`. -/
theorem conv_forward_output_shape_witness :
    convForwardShape 2 3 1 1 2 1 0 1 3 4 4 = some (1, 2, 4, 4) := by
  have h := conv_forward_output_shape 2 3 1 1 2 1 0 1 3 4 4
    (by norm_num) (by norm_num) (by norm_num) rfl rfl (by norm_num) (by norm_num)
  simpa using h

/-- The source's truncated pooling output size agrees with the floor
formula whenever the window fits. -/
theorem poolOutH_eq (H ph stride : Nat) (hs : 0 < stride) (hp : ph ≤ H) :
    poolOutH H ph stride = (H - ph) / stride + 1 := by
  unfold poolOutH
  rw [show (stride : Int) + (H : Int) - (ph : Int) =
    (((stride + (H - ph)) : Nat) : Int) by omega]
  rw [show Int.tdiv (((stride + (H - ph)) : Nat) : Int) ((stride : Nat) : Int) =
    ((((stride + (H - ph)) / stride) : Nat) : Int) from rfl]
  rw [Int.toNat_natCast, Nat.add_comm stride (H - ph), Nat.add_div_right _ hs]

/-- A sum over a shifted index with an equality guard collapses to the
single matching term. -/
theorem sum_range_shift_ite (m base target : Nat) (f : Nat → ℚ) :
    (∑ k ∈ Finset.range m, if base + k = target then f k else 0) =
      if base ≤ target ∧ target < base + m then f (target - base) else 0 := by
  by_cases h : base ≤ target ∧ target < base + m
  · rw [if_pos h]
    have hmem : target - base ∈ Finset.range m := Finset.mem_range.mpr (by omega)
    refine (Finset.sum_eq_single_of_mem (target - base) hmem ?_).trans (if_pos (by omega))
    intro b hb hne
    rw [Finset.mem_range] at hb
    exact if_neg (by omega)
  · rw [if_neg h]
    apply Finset.sum_eq_zero
    intro k hk
    rw [Finset.mem_range] at hk
    exact if_neg (by omega)

/-- Collapsing the double kernel sum of one window: only the kernel cell
that maps onto the target position can contribute, and it contributes its
scattered value exactly when that cell is the recorded argmax. -/
theorem double_shift_ite (ph pw b1 b2 hh ww A : Nat) (v : ℚ) :
    (∑ kh ∈ Finset.range ph, ∑ kw ∈ Finset.range pw,
        if b1 + kh = hh ∧ b2 + kw = ww then
          (if kh * pw + kw = A then v else 0) else 0)
      = if b1 ≤ hh ∧ hh < b1 + ph ∧ b2 ≤ ww ∧ ww < b2 + pw
            ∧ (hh - b1) * pw + (ww - b2) = A
        then v else 0 := by
  have hinner : ∀ kh,
      (∑ kw ∈ Finset.range pw,
        if b1 + kh = hh ∧ b2 + kw = ww then
          (if kh * pw + kw = A then v else 0) else 0)
      = if b1 + kh = hh then
          (if b2 ≤ ww ∧ ww < b2 + pw then
            (if kh * pw + (ww - b2) = A then v else 0) else 0)
        else 0 := by
    intro kh
    by_cases hP : b1 + kh = hh
    · rw [if_pos hP]
      have hstep : (∑ kw ∈ Finset.range pw,
          if b1 + kh = hh ∧ b2 + kw = ww then
            (if kh * pw + kw = A then v else 0) else 0)
          = ∑ kw ∈ Finset.range pw,
            if b2 + kw = ww then (if kh * pw + kw = A then v else 0) else 0 := by
        apply Finset.sum_congr rfl
        intro kw _
        simp [hP]
      rw [hstep, sum_range_shift_ite pw b2 ww (fun kw => if kh * pw + kw = A then v else 0)]
    · rw [if_neg hP]
      apply Finset.sum_eq_zero
      intro kw _
      exact if_neg (by tauto)
  rw [Finset.sum_congr rfl (fun kh _ => hinner kh)]
  rw [sum_range_shift_ite ph b1 hh
    (fun kh => if b2 ≤ ww ∧ ww < b2 + pw then
      (if kh * pw + (ww - b2) = A then v else 0) else 0)]
  split_ifs <;> first | rfl | tauto

/-- Claim C7: after a forward pass that recorded the per-window argmax
positions, `Pooling.backward` routes each window's upstream gradient value
entirely to the input position recorded as that window's argmax: the
gradient at input position `(hh, ww)` is the sum of `dout` over exactly
those windows covering `(hh, ww)` whose recorded argmax is `(hh, ww)`; a
position that is no covering window's argmax receives exactly zero, and
with upstream gradient 1 per window the full gradient lands on argmax
positions. -/
theorem pooling_backward_routing (x dout : Tensor4) (ph pw s : Nat)
    (hs : 0 < s) (hph : ph ≤ x.h) (hpw : pw ≤ x.w) (n c hh ww : Nat) :
    (poolBackward x ph pw s 0 dout).val n c hh ww =
      ∑ p ∈ (Finset.range (poolOutH x.h ph s) ×ˢ Finset.range (poolOutH x.w pw s)).filter
        (fun p => p.1 * s ≤ hh ∧ hh < p.1 * s + ph ∧ p.2 * s ≤ ww ∧ ww < p.2 * s + pw
          ∧ (hh - p.1 * s) * pw + (ww - p.2 * s) = poolArgmax x ph pw s 0 n c p.1 p.2),
        dout.val n c p.1 p.2 := by
  rw [poolOutH_eq x.h ph s hs hph, poolOutH_eq x.w pw s hs hpw]
  rw [Finset.sum_filter, Finset.sum_product]
  simp only [poolBackward, col2im, poolDmax, Nat.mul_zero, Nat.add_zero]
  apply Finset.sum_congr rfl
  intro oh _
  apply Finset.sum_congr rfl
  intro ow _
  exact double_shift_ite ph pw (oh * s) (ow * s) hh ww
    (poolArgmax x ph pw s 0 n c oh ow) (dout.val n c oh ow)

/-- Witness for C7: the single 2×2 window `[[1, 2], [3, 4]]` with stride 2
and upstream gradient 1: the full gradient lands at the recorded argmax
position (1,1). -/
theorem pooling_backward_routing_witness :
    (poolBackward (⟨1, 1, 2, 2, fun _ _ i j => (1 + 2 * i + j : ℚ)⟩ : Tensor4)
        2 2 2 0 (⟨1, 1, 1, 1, fun _ _ _ _ => 1⟩ : Tensor4)).val 0 0 1 1 = 1 := by
  rw [pooling_backward_routing (⟨1, 1, 2, 2, fun _ _ i j => (1 + 2 * i + j : ℚ)⟩ : Tensor4)
    (⟨1, 1, 1, 1, fun _ _ _ _ => 1⟩ : Tensor4) 2 2 2 (by norm_num)
    (by norm_num) (by norm_num) 0 0 1 1]
  have hval : poolOutH 2 2 2 = 1 := by rw [poolOutH_eq 2 2 2 (by norm_num) (by norm_num)]
  rw [hval]
  have harg : poolArgmax (⟨1, 1, 2, 2, fun _ _ i j => (1 + 2 * i + j : ℚ)⟩ : Tensor4)
      2 2 2 0 0 0 0 0 = 3 := by
    have hwin : poolWindow (⟨1, 1, 2, 2, fun _ _ i j => (1 + 2 * i + j : ℚ)⟩ : Tensor4)
        2 2 2 0 0 0 0 0 = [1, 2, 3, 4] := by
      norm_num [poolWindow, padAt, List.range_succ]
    rw [poolArgmax, hwin]
    norm_num [listArgmax, List.range_succ]
  rw [show ((Finset.range 1 ×ˢ Finset.range 1).filter
      (fun p => p.1 * 2 ≤ 1 ∧ 1 < p.1 * 2 + 2 ∧ p.2 * 2 ≤ 1 ∧ 1 < p.2 * 2 + 2
        ∧ (1 - p.1 * 2) * 2 + (1 - p.2 * 2) =
          poolArgmax (⟨1, 1, 2, 2, fun _ _ i j => (1 + 2 * i + j : ℚ)⟩ : Tensor4)
            2 2 2 0 0 0 p.1 p.2)) = {(0, 0)} by
    apply Finset.eq_singleton_iff_unique_mem.mpr
    constructor
    · refine Finset.mem_filter.mpr ⟨by simp, by norm_num [harg]⟩
    · rintro ⟨a, b⟩ hp
      have hmem := (Finset.mem_filter.mp hp).1
      rw [Finset.mem_product, Finset.mem_range, Finset.mem_range] at hmem
      have h1 : a = 0 := by omega
      have h2 : b = 0 := by omega
      rw [h1, h2]]
  simp
